import Mathlib

/-!
Verification development for the window-resolution, tree-addressing,
coordinate-transform and extraction-protocol layer of `macos-commander`.

The TypeScript sources are embedded shallowly:

* JavaScript strings are modelled as `Str := List Char` (a JS string is a
  sequence of code units; all string operations used by the code --
  `toLowerCase`, `includes`, `split(/\s+/)`, interpolation, slicing --
  are given faithful counterparts on `List Char`).
* JavaScript numbers are modelled as `ℚ` where the code divides
  (coordinate transforms, click centers) and as `ℕ` where every value
  manipulated is a small integer (similarity scores, exit codes).
* The external extractor process is an oracle value: each spawned run is
  summarised by its exit code, raw stdout text, the result of
  `JSON.parse` on that text (`none` when parsing throws), and stderr.
* Promise resolution/rejection is an `Except` value; user interaction
  (`waitForUserInput`) and the sequence of dispatched child processes are
  recorded in the returned outcome structure so that retry behaviour is
  observable.
-/

/-- JS strings as lists of characters. -/
abbrev Str := List Char

/-! ## Decimal numerals

`natLit n` is the decimal numeral JavaScript produces for a (small
integer) number `n`, as used by template interpolation such as
`` `${currentId}.${index + 1}` ``. -/

/-- The character of a single decimal digit. -/
def digitChar (d : Nat) : Char := Char.ofNat (48 + d)

/-- Decimal digits of `n`, least significant first. -/
def toDigitsRev (n : Nat) : List Nat :=
  if _h : n < 10 then [n] else (n % 10) :: toDigitsRev (n / 10)
termination_by n
decreasing_by exact Nat.div_lt_self (by omega) (by omega)

/-- Decimal numeral of `n`, most significant digit first. -/
def natLit (n : Nat) : Str := ((toDigitsRev n).reverse).map digitChar

/-- Value of a least-significant-first digit list. -/
def ofDigitsRev : List Nat → Nat
  | [] => 0
  | d :: ds => d + 10 * ofDigitsRev ds

theorem toDigitsRev_ne_nil (n : Nat) : toDigitsRev n ≠ [] := by
  rw [toDigitsRev]
  split <;> simp

theorem natLit_ne_nil (n : Nat) : natLit n ≠ [] := by
  have h := toDigitsRev_ne_nil n
  simp [natLit]
  intro hc
  exact h hc

theorem mem_toDigitsRev_lt (n : Nat) : ∀ d ∈ toDigitsRev n, d < 10 := by
  induction n using Nat.strong_induction_on with
  | _ n ih =>
    rw [toDigitsRev]
    split
    · intro d hd
      simp at hd
      omega
    · intro d hd
      simp at hd
      rcases hd with h | h
      · omega
      · exact ih (n / 10) (Nat.div_lt_self (by omega) (by omega)) d h

theorem ofDigitsRev_toDigitsRev (n : Nat) : ofDigitsRev (toDigitsRev n) = n := by
  induction n using Nat.strong_induction_on with
  | _ n ih =>
    rw [toDigitsRev]
    split
    · simp [ofDigitsRev]
    · rw [ofDigitsRev, ih (n / 10) (Nat.div_lt_self (by omega) (by omega))]
      omega

theorem digitChar_inj : ∀ d₁ < 10, ∀ d₂ < 10, digitChar d₁ = digitChar d₂ → d₁ = d₂ := by
  decide

theorem digitChar_ne_dot : ∀ d < 10, digitChar d ≠ '.' := by
  decide

theorem natLit_chars (n : Nat) : ∀ c ∈ natLit n, ∃ d < 10, c = digitChar d := by
  intro c hc
  simp only [natLit, List.mem_map, List.mem_reverse] at hc
  obtain ⟨d, hd, rfl⟩ := hc
  exact ⟨d, mem_toDigitsRev_lt n d hd, rfl⟩

theorem dot_not_mem_natLit (n : Nat) : '.' ∉ natLit n := by
  intro h
  obtain ⟨d, hd, hc⟩ := natLit_chars n '.' h
  exact digitChar_ne_dot d hd hc.symm

theorem map_digitChar_inj :
    ∀ l₁ l₂ : List Nat, (∀ d ∈ l₁, d < 10) → (∀ d ∈ l₂, d < 10) →
      l₁.map digitChar = l₂.map digitChar → l₁ = l₂ := by
  intro l₁
  induction l₁ with
  | nil =>
    intro l₂ _ _ h
    cases l₂ <;> simp_all
  | cons d₁ t₁ ih =>
    intro l₂ h₁ h₂ h
    cases l₂ with
    | nil => simp_all
    | cons d₂ t₂ =>
      simp only [List.map_cons, List.cons.injEq] at h
      have hd : d₁ = d₂ :=
        digitChar_inj d₁ (h₁ d₁ (by simp)) d₂ (h₂ d₂ (by simp)) h.1
      have ht : t₁ = t₂ :=
        ih t₂ (fun d hd => h₁ d (by simp [hd])) (fun d hd => h₂ d (by simp [hd])) h.2
      rw [hd, ht]

theorem natLit_inj {m n : Nat} (h : natLit m = natLit n) : m = n := by
  have hrd : (toDigitsRev m).reverse = (toDigitsRev n).reverse :=
    map_digitChar_inj _ _
      (fun d hd => mem_toDigitsRev_lt m d (List.mem_reverse.mp hd))
      (fun d hd => mem_toDigitsRev_lt n d (List.mem_reverse.mp hd)) h
  have htd : toDigitsRev m = toDigitsRev n := by
    have := congrArg List.reverse hrd
    simpa using this
  calc m = ofDigitsRev (toDigitsRev m) := (ofDigitsRev_toDigitsRev m).symm
    _ = ofDigitsRev (toDigitsRev n) := by rw [htd]
    _ = n := ofDigitsRev_toDigitsRev n

theorem natLit_getLast_digit (n : Nat) :
    ∃ c, (natLit n).getLast? = some c ∧ ∃ d < 10, c = digitChar d := by
  obtain ⟨c, hc⟩ := List.getLast?_isSome.mpr (natLit_ne_nil n) |> Option.isSome_iff_exists.mp
  exact ⟨c, hc, natLit_chars n c (List.mem_of_mem_getLast? hc)⟩

/-! ## Data model

`A11yNode` mirrors the `A11yNode` interface of `src/lib/index.ts`:
an id, optional semantic fields, optional position/size (pairs of JS
numbers, modelled as `ℚ`), and a list of children (an absent or empty
`children` array is modelled as `[]`). -/

/-- The optional semantic payload of an accessibility node. -/
structure NodeAttrs where
  role : Option Str
  title : Option Str
  description : Option Str
  value : Option Str
  roleDescription : Option Str
  identifier : Option Str
  position : Option (ℚ × ℚ)
  size : Option (ℚ × ℚ)
  enabled : Option Bool
  focused : Option Bool
  selected : Option Bool
  deriving DecidableEq

/-- An attribute record with every optional field absent. -/
def NodeAttrs.empty : NodeAttrs :=
  ⟨none, none, none, none, none, none, none, none, none, none, none⟩

/-- An accessibility tree node. -/
inductive A11yNode where
  | mk (id : Str) (attrs : NodeAttrs) (children : List A11yNode)

/-- The `id` field of a node. -/
def A11yNode.id : A11yNode → Str
  | .mk i _ _ => i

/-- The attribute record of a node. -/
def A11yNode.attrs : A11yNode → NodeAttrs
  | .mk _ a _ => a

/-- The `children` array of a node. -/
def A11yNode.children : A11yNode → List A11yNode
  | .mk _ _ cs => cs

/-- The `position` field of a node. -/
def A11yNode.position (n : A11yNode) : Option (ℚ × ℚ) := n.attrs.position

/-- The `size` field of a node. -/
def A11yNode.size (n : A11yNode) : Option (ℚ × ℚ) := n.attrs.size

/-- Structural induction for `A11yNode` with a membership-based
hypothesis for children. -/
theorem A11yNode.ind (P : A11yNode → Prop)
    (h : ∀ i a cs, (∀ c ∈ cs, P c) → P (.mk i a cs)) : ∀ t, P t
  | .mk i a cs => h i a cs (fun c hc =>
      have : sizeOf c < sizeOf (A11yNode.mk i a cs) := by
        have := List.sizeOf_lt_of_mem hc
        simp only [A11yNode.mk.sizeOf_spec]
        omega
      A11yNode.ind P h c)
termination_by t => sizeOf t

/-! ## Tree Addressing (`assignHierarchicalIds`, src/lib/inference.ts)

```ts
export function assignHierarchicalIds(tree, parentId = "") {
  const assignIds = (node, currentId) => {
    const hasChildren = node.children && node.children.length > 0;
    const nodeId = hasChildren ? currentId + "." : currentId;
    const nodeWithId = { ...node, id: nodeId };
    if (hasChildren)
      nodeWithId.children = node.children.map((child, index) => {
        const childId = currentId ? currentId + "." + (index+1) : "" + (index+1);
        return assignIds(child, childId);
      });
    return nodeWithId;
  };
  const rootId = parentId || "1";
  return assignIds(tree, rootId);
}
```
-/

/-- Prefix handed to child number `index` (0-based) below `currentId`. -/
def childIdOf (currentId : Str) (index : Nat) : Str :=
  if currentId.isEmpty then natLit (index + 1)
  else currentId ++ '.' :: natLit (index + 1)

mutual

/-- The inner `assignIds` closure. -/
def assignIds : A11yNode → Str → A11yNode
  | .mk _ attrs children, currentId =>
    .mk (if children.isEmpty then currentId else currentId ++ ['.']) attrs
      (assignIdsChildren children currentId 0)

/-- `node.children.map((child, index) => assignIds(child, childId))`. -/
def assignIdsChildren : List A11yNode → Str → Nat → List A11yNode
  | [], _, _ => []
  | c :: cs, currentId, index =>
    assignIds c (childIdOf currentId index) :: assignIdsChildren cs currentId (index + 1)

end

/-- `assignHierarchicalIds` with its `parentId = ""` default. -/
def assignHierarchicalIds (tree : A11yNode) (parentId : Str := []) : A11yNode :=
  assignIds tree (if parentId.isEmpty then ['1'] else parentId)

/-! ## `findNodeById` (src/lib/actions.ts)

```ts
function findNodeById(node, targetId) {
  if (node.id === targetId) return node;
  if (!node.children) return null;
  for (const child of node.children) {
    const found = findNodeById(child, targetId);
    if (found) return found;
  }
  return null;
}
```
-/

mutual

/-- Depth-first search by id equality. -/
def findNodeById : A11yNode → Str → Option A11yNode
  | .mk i attrs children, targetId =>
    if i = targetId then some (.mk i attrs children)
    else findNodeInChildren children targetId

/-- The `for (const child of node.children)` loop. -/
def findNodeInChildren : List A11yNode → Str → Option A11yNode
  | [], _ => none
  | c :: cs, targetId =>
    match findNodeById c targetId with
    | some found => some found
    | none => findNodeInChildren cs targetId

end

/-! ## Observation functions on trees (verification-side only) -/

mutual

/-- All nodes of a tree in depth-first preorder. -/
def nodesOf : A11yNode → List A11yNode
  | .mk i a cs => .mk i a cs :: nodesOfChildren cs

/-- All nodes of a forest in depth-first preorder. -/
def nodesOfChildren : List A11yNode → List A11yNode
  | [] => []
  | c :: cs => nodesOf c ++ nodesOfChildren cs

end

/-- The ids of all nodes of a tree, in preorder. -/
def idsOf (t : A11yNode) : List Str := (nodesOf t).map A11yNode.id

/-- The ids of all nodes of a forest, in preorder. -/
def idsOfChildren (cs : List A11yNode) : List Str :=
  (nodesOfChildren cs).map A11yNode.id

/-- The bare shape of a tree: what remains when every field except the
children structure is erased.  Identifier assignment depends only on
this. -/
inductive TreeShape where
  | node (children : List TreeShape)

mutual

/-- Shape of a tree. -/
def shapeOf : A11yNode → TreeShape
  | .mk _ _ cs => .node (shapeOfChildren cs)

/-- Shapes of a forest. -/
def shapeOfChildren : List A11yNode → List TreeShape
  | [] => []
  | c :: cs => shapeOf c :: shapeOfChildren cs

end

@[simp]
theorem A11yNode.id_mk (i : Str) (a : NodeAttrs) (cs : List A11yNode) :
    (A11yNode.mk i a cs).id = i := rfl

@[simp]
theorem A11yNode.attrs_mk (i : Str) (a : NodeAttrs) (cs : List A11yNode) :
    (A11yNode.mk i a cs).attrs = a := rfl

@[simp]
theorem A11yNode.children_mk (i : Str) (a : NodeAttrs) (cs : List A11yNode) :
    (A11yNode.mk i a cs).children = cs := rfl

theorem idsOf_mk (i : Str) (a : NodeAttrs) (cs : List A11yNode) :
    idsOf (.mk i a cs) = i :: idsOfChildren cs := by
  simp [idsOf, idsOfChildren, nodesOf]

theorem idsOfChildren_cons (c : A11yNode) (cs : List A11yNode) :
    idsOfChildren (c :: cs) = idsOf c ++ idsOfChildren cs := by
  simp [idsOf, idsOfChildren, nodesOfChildren]

/-! ## Injectivity of hierarchical ids

Every id assigned below prefix `q` is either `q` itself, `q ++ "."`, or
begins with `q ++ "."`; numerals contain no `'.'`, which separates the
subtrees of distinct children. -/

/-- `s` is an id that can be assigned inside the subtree rooted at
prefix `q`: it is `q` itself (leaf), or extends `q ++ "."`. -/
def IdExtends (q s : Str) : Prop := s = q ∨ (q ++ ['.']) <+: s

theorem IdExtends.length_le {q s : Str} (h : IdExtends q s) : q.length ≤ s.length := by
  rcases h with rfl | h
  · exact le_rfl
  · have := h.length_le
    simp at this
    omega

theorem prefix_cancel_left {r x y : Str} (h : r ++ x <+: r ++ y) : x <+: y := by
  obtain ⟨t, ht⟩ := h
  rw [List.append_assoc] at ht
  exact ⟨t, List.append_cancel_left ht⟩

theorem prefix_drop_last {x y : Str} {c : Char} (h : x <+: y ++ [c])
    (hlen : x.length ≤ y.length) : x <+: y := by
  have hx : x = List.take x.length (y ++ [c]) := List.prefix_iff_eq_take.mp h
  rw [List.take_append_eq_append_take, Nat.sub_eq_zero_of_le hlen, List.take_zero,
    List.append_nil] at hx
  exact List.prefix_iff_eq_take.mpr hx

theorem dotted_incomparable {a b : Str} (hne : a ≠ b) (hb : '.' ∉ b) :
    ¬ (a ++ ['.'] <+: b ++ ['.']) := by
  intro h
  have hlen := h.length_le
  simp only [List.length_append, List.length_cons, List.length_nil] at hlen
  rcases Nat.lt_or_ge a.length b.length with hlt | hge
  · have hpre : a ++ ['.'] <+: b := prefix_drop_last h (by simp; omega)
    have : '.' ∈ b := hpre.sublist.subset (by simp)
    exact hb this
  · have heq : a.length = b.length := by omega
    have := h.eq_of_length (by simp [heq])
    exact hne (List.append_cancel_right this)

theorem idExtends_dotted_disjoint {q a b : Str} (hne : a ≠ b)
    (ha : '.' ∉ a) (hb : '.' ∉ b) {s : Str}
    (h₁ : IdExtends (q ++ '.' :: a) s) (h₂ : IdExtends (q ++ '.' :: b) s) : False := by
  have ea : q ++ '.' :: a = (q ++ ['.']) ++ a := by simp
  have eb : q ++ '.' :: b = (q ++ ['.']) ++ b := by simp
  rw [ea] at h₁
  rw [eb] at h₂
  rcases h₁ with rfl | h₁ <;> rcases h₂ with h₂ | h₂
  · exact hne (List.append_cancel_left h₂)
  · have : b ++ ['.'] <+: a := by
      have : (q ++ ['.']) ++ (b ++ ['.']) <+: (q ++ ['.']) ++ a := by
        simpa using h₂
      exact prefix_cancel_left this
    exact ha (this.sublist.subset (by simp))
  · have : a ++ ['.'] <+: b := by
      have : (q ++ ['.']) ++ (a ++ ['.']) <+: (q ++ ['.']) ++ b := by
        simpa [h₂] using h₁
      exact prefix_cancel_left this
    exact hb (this.sublist.subset (by simp))
  · rcases List.prefix_or_prefix_of_prefix h₁ h₂ with h | h
    · have : a ++ ['.'] <+: b ++ ['.'] := by
        have : (q ++ ['.']) ++ (a ++ ['.']) <+: (q ++ ['.']) ++ (b ++ ['.']) := by
          simpa using h
        exact prefix_cancel_left this
      exact dotted_incomparable hne hb this
    · have : b ++ ['.'] <+: a ++ ['.'] := by
        have : (q ++ ['.']) ++ (b ++ ['.']) <+: (q ++ ['.']) ++ (a ++ ['.']) := by
          simpa using h
        exact prefix_cancel_left this
      exact dotted_incomparable (Ne.symm hne) ha this

theorem childIdOf_disjoint {q : Str} (hq : q ≠ []) {j₁ j₂ : Nat} (hne : j₁ ≠ j₂)
    {s : Str} (h₁ : IdExtends (childIdOf q j₁) s) (h₂ : IdExtends (childIdOf q j₂) s) :
    False := by
  rw [childIdOf, if_neg (by simpa using hq)] at h₁
  rw [childIdOf, if_neg (by simpa using hq)] at h₂
  exact idExtends_dotted_disjoint
    (fun h => hne (by have := natLit_inj h; omega))
    (dot_not_mem_natLit _) (dot_not_mem_natLit _) h₁ h₂

@[simp]
theorem assignIds_mk (i : Str) (a : NodeAttrs) (cs : List A11yNode) (q : Str) :
    assignIds (.mk i a cs) q =
      .mk (if cs.isEmpty then q else q ++ ['.']) a (assignIdsChildren cs q 0) := by
  rw [assignIds]

@[simp]
theorem assignIdsChildren_nil (q : Str) (k : Nat) : assignIdsChildren [] q k = [] := by
  rw [assignIdsChildren]

@[simp]
theorem assignIdsChildren_cons (c : A11yNode) (cs : List A11yNode) (q : Str) (k : Nat) :
    assignIdsChildren (c :: cs) q k =
      assignIds c (childIdOf q k) :: assignIdsChildren cs q (k + 1) := by
  rw [assignIdsChildren]

theorem childIdOf_of_ne_nil {q : Str} (hq : q ≠ []) (j : Nat) :
    childIdOf q j = q ++ '.' :: natLit (j + 1) := by
  rw [childIdOf, if_neg (by simpa using hq)]

theorem childIdOf_ne_nil {q : Str} (hq : q ≠ []) (j : Nat) : childIdOf q j ≠ [] := by
  rw [childIdOf_of_ne_nil hq]
  simp

theorem mem_nodesOfChildren_assign :
    ∀ (cs : List A11yNode) (q : Str) (k : Nat) (n : A11yNode),
      n ∈ nodesOfChildren (assignIdsChildren cs q k) →
      ∃ j, k ≤ j ∧ ∃ c ∈ cs, n ∈ nodesOf (assignIds c (childIdOf q j)) := by
  intro cs
  induction cs with
  | nil =>
    intro q k n h
    simp [nodesOfChildren] at h
  | cons c cs ih =>
    intro q k n h
    rw [assignIdsChildren_cons, nodesOfChildren] at h
    rcases List.mem_append.mp h with h | h
    · exact ⟨k, le_rfl, c, by simp, h⟩
    · obtain ⟨j, hj, c', hc', hn⟩ := ih q (k + 1) n h
      exact ⟨j, by omega, c', by simp [hc'], hn⟩

theorem mem_idsOfChildren_assign {cs : List A11yNode} {q : Str} {k : Nat} {s : Str}
    (h : s ∈ idsOfChildren (assignIdsChildren cs q k)) :
    ∃ j, k ≤ j ∧ ∃ c ∈ cs, s ∈ idsOf (assignIds c (childIdOf q j)) := by
  obtain ⟨n, hn, rfl⟩ := List.mem_map.mp h
  obtain ⟨j, hj, c, hc, hnn⟩ := mem_nodesOfChildren_assign cs q k n hn
  exact ⟨j, hj, c, hc, List.mem_map.mpr ⟨n, hnn, rfl⟩⟩

theorem ids_assign_extends :
    ∀ (t : A11yNode) (q : Str), q ≠ [] → ∀ s ∈ idsOf (assignIds t q), IdExtends q s := by
  intro t
  induction t using A11yNode.ind with
  | _ i a cs ih =>
    intro q hq s hs
    rw [assignIds_mk, idsOf_mk] at hs
    rcases List.mem_cons.mp hs with rfl | hs
    · by_cases hcs : cs.isEmpty
      · rw [if_pos hcs]
        exact Or.inl rfl
      · rw [if_neg hcs]
        exact Or.inr (List.prefix_refl _)
    · obtain ⟨j, _, c, hc, hmem⟩ := mem_idsOfChildren_assign hs
      have hext : IdExtends (childIdOf q j) s :=
        ih c hc (childIdOf q j) (childIdOf_ne_nil hq j) s hmem
      right
      rw [childIdOf_of_ne_nil hq] at hext
      have hpre : (q ++ ['.']) <+: q ++ '.' :: natLit (j + 1) := by
        refine ⟨natLit (j + 1), ?_⟩
        simp
      rcases hext with rfl | hext
      · exact hpre
      · refine hpre.trans (List.IsPrefix.trans ⟨['.'], rfl⟩ hext)

theorem idExtends_child_length {q : Str} (hq : q ≠ []) {j : Nat} {s : Str}
    (h : IdExtends (childIdOf q j) s) : q.length + 2 ≤ s.length := by
  have hl := h.length_le
  rw [childIdOf_of_ne_nil hq] at hl
  have hnl : (natLit (j + 1)).length ≥ 1 :=
    List.length_pos.mpr (natLit_ne_nil (j + 1))
  simp only [List.length_append, List.length_cons] at hl
  omega

theorem ids_assignChildren_nodup :
    ∀ (cs : List A11yNode) (q : Str), q ≠ [] → ∀ k : Nat,
      (∀ c ∈ cs, ∀ q' : Str, q' ≠ [] → (idsOf (assignIds c q')).Nodup) →
      (idsOfChildren (assignIdsChildren cs q k)).Nodup := by
  intro cs
  induction cs with
  | nil =>
    intro q hq k _
    simp [idsOfChildren, nodesOfChildren]
  | cons c cs ih =>
    intro q hq k hall
    rw [assignIdsChildren_cons, idsOfChildren_cons]
    rw [List.nodup_append]
    refine ⟨hall c (by simp) _ (childIdOf_ne_nil hq k), ih q hq (k + 1) ?_, ?_⟩
    · intro c' hc'
      exact hall c' (by simp [hc'])
    · intro s hs₁ hs₂
      have h₁ : IdExtends (childIdOf q k) s :=
        ids_assign_extends c _ (childIdOf_ne_nil hq k) s hs₁
      obtain ⟨j, hj, c', hc', hmem⟩ := mem_idsOfChildren_assign hs₂
      have h₂ : IdExtends (childIdOf q j) s :=
        ids_assign_extends c' _ (childIdOf_ne_nil hq j) s hmem
      exact childIdOf_disjoint hq (by omega) h₁ h₂

theorem ids_assign_nodup :
    ∀ (t : A11yNode) (q : Str), q ≠ [] → (idsOf (assignIds t q)).Nodup := by
  intro t
  induction t using A11yNode.ind with
  | _ i a cs ih =>
    intro q hq
    rw [assignIds_mk, idsOf_mk, List.nodup_cons]
    constructor
    · intro hmem
      obtain ⟨j, _, c, hc, hs⟩ := mem_idsOfChildren_assign hmem
      have hext : IdExtends (childIdOf q j) _ :=
        ids_assign_extends c _ (childIdOf_ne_nil hq j) _ hs
      have hlen := idExtends_child_length hq hext
      have : (if cs.isEmpty then q else q ++ ['.']).length ≤ q.length + 1 := by
        split <;> simp
      omega
    · exact ids_assignChildren_nodup cs q hq 0 (fun c hc => ih c hc)

@[simp]
theorem shapeOf_mk (i : Str) (a : NodeAttrs) (cs : List A11yNode) :
    shapeOf (.mk i a cs) = .node (shapeOfChildren cs) := by
  rw [shapeOf]

@[simp]
theorem shapeOfChildren_nil : shapeOfChildren [] = [] := by
  rw [shapeOfChildren]

@[simp]
theorem shapeOfChildren_cons (c : A11yNode) (cs : List A11yNode) :
    shapeOfChildren (c :: cs) = shapeOf c :: shapeOfChildren cs := by
  rw [shapeOfChildren]

theorem idsChildren_assign_shape_eq :
    ∀ (cs₁ : List A11yNode),
      (∀ c ∈ cs₁, ∀ t₂ : A11yNode, shapeOf c = shapeOf t₂ →
        ∀ q : Str, idsOf (assignIds c q) = idsOf (assignIds t₂ q)) →
      ∀ cs₂ : List A11yNode, shapeOfChildren cs₁ = shapeOfChildren cs₂ →
      ∀ (q : Str) (k : Nat),
        idsOfChildren (assignIdsChildren cs₁ q k) =
          idsOfChildren (assignIdsChildren cs₂ q k) := by
  intro cs₁
  induction cs₁ with
  | nil =>
    intro _ cs₂ hs q k
    cases cs₂ with
    | nil => rfl
    | cons c₂ t₂ => simp at hs
  | cons c₁ t₁ ih =>
    intro hall cs₂ hs q k
    cases cs₂ with
    | nil => simp at hs
    | cons c₂ t₂ =>
      simp only [shapeOfChildren_cons, List.cons.injEq] at hs
      rw [assignIdsChildren_cons, assignIdsChildren_cons, idsOfChildren_cons,
        idsOfChildren_cons]
      rw [hall c₁ (by simp) c₂ hs.1 (childIdOf q k),
        ih (fun c hc => hall c (by simp [hc])) t₂ hs.2 q (k + 1)]

theorem ids_assign_shape_eq :
    ∀ (t₁ t₂ : A11yNode), shapeOf t₁ = shapeOf t₂ →
      ∀ q : Str, idsOf (assignIds t₁ q) = idsOf (assignIds t₂ q) := by
  intro t₁
  induction t₁ using A11yNode.ind with
  | _ i a cs ih =>
    intro t₂ hs q
    cases t₂ with
    | mk i₂ a₂ cs₂ =>
      simp only [shapeOf_mk, TreeShape.node.injEq] at hs
      have hempty : cs.isEmpty = cs₂.isEmpty := by
        cases cs <;> cases cs₂ <;> simp_all
      rw [assignIds_mk, assignIds_mk, idsOf_mk, idsOf_mk, hempty,
        idsChildren_assign_shape_eq cs (fun c hc => ih c hc) cs₂ hs q 0]

/-! ## Leaf/internal marking: an assigned id ends in `'.'` exactly for
nodes with children. -/

/-- A well-formed prefix: nonempty and not ending in the separator.
Every prefix that `assignIds` is actually called with satisfies this. -/
def GoodPref (q : Str) : Prop := q ≠ [] ∧ ∀ c, q.getLast? = some c → c ≠ '.'

theorem childIdOf_good {q : Str} (hq : q ≠ []) (j : Nat) : GoodPref (childIdOf q j) := by
  rw [childIdOf_of_ne_nil hq]
  constructor
  · simp
  · intro c hc
    obtain ⟨c', hc', d, hd, rfl⟩ := natLit_getLast_digit (j + 1)
    have h₁ : ('.' :: natLit (j + 1) : Str) ≠ [] := by simp
    rw [List.getLast?_append_of_ne_nil _ h₁] at hc
    have h₂ : ('.' :: natLit (j + 1) : Str) = ['.'] ++ natLit (j + 1) := rfl
    rw [h₂, List.getLast?_append_of_ne_nil _ (natLit_ne_nil (j + 1)), hc'] at hc
    have : c = digitChar d := by injection hc with h; exact h.symm
    rw [this]
    exact digitChar_ne_dot d hd

theorem assign_dot_iff :
    ∀ (t : A11yNode) (q : Str), GoodPref q →
      ∀ n ∈ nodesOf (assignIds t q),
        (n.children ≠ [] ↔ n.id.getLast? = some '.') := by
  intro t
  induction t using A11yNode.ind with
  | _ i a cs ih =>
    intro q hq n hn
    rw [assignIds_mk, nodesOf] at hn
    rcases List.mem_cons.mp hn with rfl | hn
    · by_cases hcs : cs.isEmpty
      · have hcs' : cs = [] := by simpa using hcs
        subst hcs'
        simp only [List.isEmpty_nil, if_true, A11yNode.children_mk, A11yNode.id_mk,
          assignIdsChildren_nil]
        constructor
        · intro h
          exact absurd rfl h
        · intro h
          exact absurd rfl (hq.2 '.' h)
      · have hcs' : cs ≠ [] := by simpa using hcs
        rw [if_neg hcs]
        simp only [A11yNode.children_mk, A11yNode.id_mk]
        constructor
        · intro _
          exact List.getLast?_concat q
        · intro _
          cases cs with
          | nil => exact absurd rfl hcs'
          | cons c t => simp
    · obtain ⟨j, _, c, hc, hmem⟩ := mem_nodesOfChildren_assign cs q 0 n hn
      exact ih c hc (childIdOf q j) (childIdOf_good hq.1 j) n hmem

@[simp]
theorem findNodeById_mk (i : Str) (a : NodeAttrs) (cs : List A11yNode) (tid : Str) :
    findNodeById (.mk i a cs) tid =
      if i = tid then some (.mk i a cs) else findNodeInChildren cs tid := by
  rw [findNodeById]

@[simp]
theorem findNodeInChildren_nil (tid : Str) : findNodeInChildren [] tid = none := by
  rw [findNodeInChildren]

@[simp]
theorem findNodeInChildren_cons (c : A11yNode) (cs : List A11yNode) (tid : Str) :
    findNodeInChildren (c :: cs) tid =
      match findNodeById c tid with
      | some found => some found
      | none => findNodeInChildren cs tid := by
  rw [findNodeInChildren]

theorem findNodeById_eq_none :
    ∀ (t : A11yNode) (tid : Str), tid ∉ idsOf t → findNodeById t tid = none := by
  intro t
  induction t using A11yNode.ind with
  | _ i a cs ih =>
    intro tid htid
    rw [idsOf_mk] at htid
    have hne : i ≠ tid := fun h => htid (by simp [h])
    have hcs : tid ∉ idsOfChildren cs := fun h => htid (by simp [h])
    rw [findNodeById_mk, if_neg hne]
    clear htid hne
    induction cs with
    | nil => simp
    | cons c cs' ihl =>
      rw [idsOfChildren_cons] at hcs
      rw [findNodeInChildren_cons,
        ih c (by simp) tid (fun h => hcs (List.mem_append.mpr (Or.inl h)))]
      exact ihl (fun c hc => ih c (by simp [hc]))
        (fun h => hcs (List.mem_append.mpr (Or.inr h)))

theorem mem_idsOfChildren_of_mem_nodes {n : A11yNode} {cs : List A11yNode}
    (h : n ∈ nodesOfChildren cs) : n.id ∈ idsOfChildren cs :=
  List.mem_map.mpr ⟨n, h, rfl⟩

theorem findNodeInChildren_assigned :
    ∀ (cs : List A11yNode),
      (∀ c ∈ cs, (idsOf c).Nodup → ∀ n ∈ nodesOf c, findNodeById c n.id = some n) →
      (idsOfChildren cs).Nodup →
      ∀ n ∈ nodesOfChildren cs, findNodeInChildren cs n.id = some n := by
  intro cs
  induction cs with
  | nil =>
    intro _ _ n hn
    simp [nodesOfChildren] at hn
  | cons c cs' ihl =>
    intro hall hnd n hn
    rw [idsOfChildren_cons, List.nodup_append] at hnd
    rw [nodesOfChildren] at hn
    rw [findNodeInChildren_cons]
    rcases List.mem_append.mp hn with hmem | hmem
    · rw [hall c (by simp) hnd.1 n hmem]
    · have hid : n.id ∈ idsOfChildren cs' := mem_idsOfChildren_of_mem_nodes hmem
      have hnotc : n.id ∉ idsOf c := fun h => hnd.2.2 h hid
      rw [findNodeById_eq_none c n.id hnotc]
      exact ihl (fun c hc => hall c (by simp [hc])) hnd.2.1 n hmem

theorem findNodeById_assigned :
    ∀ (t : A11yNode), (idsOf t).Nodup → ∀ n ∈ nodesOf t, findNodeById t n.id = some n := by
  intro t
  induction t using A11yNode.ind with
  | _ i a cs ih =>
    intro hnd n hn
    rw [idsOf_mk, List.nodup_cons] at hnd
    rw [nodesOf] at hn
    rcases List.mem_cons.mp hn with rfl | hn
    · simp
    · have hne : i ≠ n.id := by
        intro h
        exact hnd.1 (h ▸ mem_idsOfChildren_of_mem_nodes hn)
      rw [findNodeById_mk, if_neg hne]
      exact findNodeInChildren_assigned cs ih hnd.2 n hn

@[simp]
theorem nodesOf_mk (i : Str) (a : NodeAttrs) (cs : List A11yNode) :
    nodesOf (.mk i a cs) = .mk i a cs :: nodesOfChildren cs := by
  rw [nodesOf]

@[simp]
theorem nodesOfChildren_nil : nodesOfChildren [] = [] := by
  rw [nodesOfChildren]

@[simp]
theorem nodesOfChildren_cons (c : A11yNode) (cs : List A11yNode) :
    nodesOfChildren (c :: cs) = nodesOf c ++ nodesOfChildren cs := by
  rw [nodesOfChildren]

theorem assignHierarchicalIds_def (t : A11yNode) :
    assignHierarchicalIds t = assignIds t ['1'] := rfl

/-- Concrete sample trees for witnesses: a three-node tree and a tree of
the same shape with different ids and attributes. -/
def exTree : A11yNode :=
  .mk [] NodeAttrs.empty
    [.mk [] NodeAttrs.empty [],
     .mk [] NodeAttrs.empty [.mk [] NodeAttrs.empty []]]

/-- Same shape as `exTree`, different ids and attributes. -/
def exTree2 : A11yNode :=
  .mk ['x'] { NodeAttrs.empty with role := some ['w'] }
    [.mk ['y'] NodeAttrs.empty [],
     .mk ['z'] { NodeAttrs.empty with title := some ['t'] }
       [.mk ['u'] NodeAttrs.empty []]]

/-- C2: `assignHierarchicalIds` is deterministic and injective: on trees
of identical structure it produces identical identifier sequences; in one
assigned tree no two nodes carry the same id; and an assigned id ends in
the separator `'.'` exactly when its node has children (internal nodes
get their path prefix plus a trailing dot, leaves the bare prefix). -/
theorem assignHierarchicalIds_deterministic_injective (t : A11yNode) :
    (∀ t' : A11yNode, shapeOf t' = shapeOf t →
      idsOf (assignHierarchicalIds t') = idsOf (assignHierarchicalIds t)) ∧
    (idsOf (assignHierarchicalIds t)).Nodup ∧
    (∀ n ∈ nodesOf (assignHierarchicalIds t),
      (n.children ≠ [] ↔ n.id.getLast? = some '.')) := by
  refine ⟨?_, ?_, ?_⟩
  · intro t' hs
    rw [assignHierarchicalIds_def, assignHierarchicalIds_def]
    exact ids_assign_shape_eq t' t hs ['1']
  · rw [assignHierarchicalIds_def]
    exact ids_assign_nodup t ['1'] (by simp)
  · rw [assignHierarchicalIds_def]
    refine assign_dot_iff t ['1'] ⟨by simp, ?_⟩
    intro c hc
    simp only [List.getLast?_singleton, Option.some.injEq] at hc
    rw [← hc]
    decide

/-- Witness for C2 at the sample trees. -/
theorem assignHierarchicalIds_deterministic_injective_witness :
    idsOf (assignHierarchicalIds exTree2) = idsOf (assignHierarchicalIds exTree) ∧
    (idsOf (assignHierarchicalIds exTree)).Nodup :=
  ⟨(assignHierarchicalIds_deterministic_injective exTree).1 exTree2
      (by simp [exTree, exTree2]),
    (assignHierarchicalIds_deterministic_injective exTree).2.1⟩

/-- C3: on an assigned tree, `findNodeById` returns exactly the node that
was assigned the looked-up id, and returns `none` (it cannot throw) for
every id not present in the tree. -/
theorem findNodeById_assignHierarchicalIds_roundTrip (t : A11yNode) :
    (∀ n ∈ nodesOf (assignHierarchicalIds t),
      findNodeById (assignHierarchicalIds t) n.id = some n) ∧
    (∀ s : Str, s ∉ idsOf (assignHierarchicalIds t) →
      findNodeById (assignHierarchicalIds t) s = none) := by
  constructor
  · intro n hn
    refine findNodeById_assigned _ ?_ n hn
    rw [assignHierarchicalIds_def]
    exact ids_assign_nodup t ['1'] (by simp)
  · intro s hs
    exact findNodeById_eq_none _ s hs

/-- Witness for C3: resolving the id of the deep leaf of `exTree`
returns that leaf; an absent id resolves to `none`. -/
theorem findNodeById_assignHierarchicalIds_roundTrip_witness :
    findNodeById (assignHierarchicalIds exTree) (['1','.','2','.','1'] : Str) =
      some (.mk ['1','.','2','.','1'] NodeAttrs.empty []) ∧
    findNodeById (assignHierarchicalIds exTree) (['9'] : Str) = none := by
  constructor
  · have h := (findNodeById_assignHierarchicalIds_roundTrip exTree).1
      (A11yNode.mk ['1','.','2','.','1'] NodeAttrs.empty [])
      (by simp [assignHierarchicalIds_def, exTree, childIdOf, natLit, toDigitsRev, digitChar])
    simpa using h
  · exact (findNodeById_assignHierarchicalIds_roundTrip exTree).2 ['9']
      (by simp [assignHierarchicalIds_def, exTree, idsOf_mk, idsOfChildren_cons, childIdOf,
        natLit, toDigitsRev, digitChar, idsOf, idsOfChildren])

/-! ## Window Resolver (src/lib/inference.ts)

`generateWindowId`, `calculateWindowSimilarity`, `searchWindows` and
`findBestWindow`, with JS string helpers.  JS `Array.prototype.sort` is
stable (ES2019), so the descending sort by score is modelled by
`List.insertionSort` under the is-at-least relation on scores, which is
sorted, a permutation, and stable -- the three properties that pin down
the unique stable descending sort. -/

/-- JS `toLowerCase` per character (the sources only ever compare ASCII
app names, titles and ids; non-ASCII case mapping is the identity here). -/
def jsToLower (c : Char) : Char :=
  if 'A' ≤ c ∧ c ≤ 'Z' then Char.ofNat (c.toNat + 32) else c

/-- JS `toLowerCase` on a string. -/
def toLowerStr (s : Str) : Str := s.map jsToLower

/-- A whitespace character as matched by the regex class `\s` (the
cases relevant to window titles). -/
def isWsChar (c : Char) : Bool := c == ' ' || c == '\t' || c == '\n' || c == '\r'

/-- JS `a.includes(b)`: `b` occurs contiguously inside `a`. -/
def jsIncludes (s sub : Str) : Bool := decide (sub <:+: s)

mutual

/-- Main state of `split(/\s+/)`: accumulating the current field
(reversed). -/
def splitWsGo : Str → Str → List Str
  | [], acc => [acc.reverse]
  | c :: rest, acc =>
    if isWsChar c then acc.reverse :: splitWsRun rest
    else splitWsGo rest (c :: acc)

/-- Separator state of `split(/\s+/)`: consuming a whitespace run. -/
def splitWsRun : Str → List Str
  | [] => [[]]
  | c :: rest => if isWsChar c then splitWsRun rest else splitWsGo rest [c]

end

/-- JS `s.split(/\s+/)`: fields between maximal whitespace runs; a
leading (trailing) run contributes a leading (trailing) empty field, and
the empty string yields `[""]`. -/
def splitWs (s : Str) : List Str := splitWsGo s []

/-- A window as listed by the extractor: `{app, title, id}`. -/
structure WindowInfo where
  app : Str
  title : Str
  id : Str
  deriving DecidableEq

/-- A character kept by `replace(/[^a-z0-9]/g, "")`. -/
def isLowerAlnum (c : Char) : Bool :=
  ('a' ≤ c && c ≤ 'z') || ('0' ≤ c && c ≤ '9')

/-- `generateWindowId(appName, windowTitle)`:
lowercase, strip non-alphanumerics, truncate (10 and 15), join with a
hyphen. -/
def generateWindowId (appName windowTitle : Str) : Str :=
  ((toLowerStr appName).filter isLowerAlnum).take 10 ++
    '-' :: ((toLowerStr windowTitle).filter isLowerAlnum).take 15

/-- The 3-gram count inside `calculateWindowSimilarity`: the number of
positions `i` with `0 ≤ i ≤ queryWord.length - 3` whose 3-character
substring occurs in `combinedWord`. -/
def gram3Count (queryWord combinedWord : Str) : Nat :=
  ((List.range (queryWord.length - 2)).filter
    (fun i => jsIncludes combinedWord ((queryWord.drop i).take 3))).length

/-- One `(queryWord, combinedWord)` step of the fuzzy loop: `+10` for a
substring hit, `+2` per matched 3-gram when the query word has length at
least 3. -/
def fuzzyWordScore (queryWord combinedWord : Str) : Nat :=
  (if jsIncludes combinedWord queryWord then 10 else 0) +
    (if 3 ≤ queryWord.length then 2 * gram3Count queryWord combinedWord else 0)

/-- The whole fuzzy-matching block of `calculateWindowSimilarity`:
query words shorter than 2 are skipped, every other pair contributes
`fuzzyWordScore`. -/
def fuzzyScore (queryLower combinedLower : Str) : Nat :=
  ((splitWs queryLower).map (fun queryWord =>
    if queryWord.length < 2 then 0
    else ((splitWs combinedLower).map
      (fun combinedWord => fuzzyWordScore queryWord combinedWord)).sum)).sum

/-- `calculateWindowSimilarity(query, window)`. -/
def calculateWindowSimilarity (query : Str) (window : WindowInfo) : Nat :=
  let queryLower := toLowerStr query
  let appLower := toLowerStr window.app
  let titleLower := toLowerStr window.title
  let combinedLower := appLower ++ ' ' :: titleLower
  if window.id = queryLower then 1000
  else
    (if appLower = queryLower ∨ titleLower = queryLower then 100 else 0) +
    (if jsIncludes combinedLower queryLower then 50 else 0) +
    (if jsIncludes appLower queryLower then 30 else 0) +
    (if jsIncludes titleLower queryLower then 30 else 0) +
    fuzzyScore queryLower combinedLower

/-- A `{window, score}` record of `searchWindows`. -/
structure ScoredWindow where
  window : WindowInfo
  score : Nat
  deriving DecidableEq

/-- Comparator of the descending sort: `a` sorts no later than `b`. -/
def scoreGE (a b : ScoredWindow) : Prop := b.score ≤ a.score

instance : DecidableRel scoreGE := fun a b =>
  inferInstanceAs (Decidable (b.score ≤ a.score))

instance : IsTotal ScoredWindow scoreGE := ⟨fun a b => le_total b.score a.score⟩

instance : IsTrans ScoredWindow scoreGE := ⟨fun _ _ _ h₁ h₂ => le_trans h₂ h₁⟩

/-- `w.id || generateWindowId(w.app, w.title)` (the empty string is the
only falsy id). -/
def withId (w : WindowInfo) : WindowInfo :=
  { w with id := if w.id.isEmpty then generateWindowId w.app w.title else w.id }

/-- `searchWindows(query, windows)`: synthesize missing ids, score,
drop zero scores, stable-sort descending, strip the scores. -/
def searchWindows (query : Str) (windows : List WindowInfo) : List WindowInfo :=
  let windowsWithIds := windows.map withId
  let scored := windowsWithIds.map
    (fun w => ScoredWindow.mk w (calculateWindowSimilarity query w))
  (List.insertionSort scoreGE (scored.filter (fun item => 0 < item.score))).map
    ScoredWindow.window

/-- `findBestWindow(query, windows)`: head of the ranked list, if any. -/
def findBestWindow (query : Str) (windows : List WindowInfo) : Option WindowInfo :=
  (searchWindows query windows).head?

/-! ## C8 machinery: the descending sort is a permutation, sorted, and
stable (equal scores keep their input order). -/

theorem filter_score_orderedInsert (c : Nat) (x : ScoredWindow) (l : List ScoredWindow) :
    (List.orderedInsert scoreGE x l).filter (fun y => decide (y.score = c)) =
      if x.score = c then x :: l.filter (fun y => decide (y.score = c))
      else l.filter (fun y => decide (y.score = c)) := by
  induction l with
  | nil =>
    simp only [List.orderedInsert_nil, List.filter]
    by_cases hx : x.score = c <;> simp [hx]
  | cons b l ih =>
    rw [List.orderedInsert]
    by_cases hxb : scoreGE x b
    · rw [if_pos hxb]
      by_cases hx : x.score = c <;> by_cases hb : b.score = c <;>
        simp [List.filter, hx, hb]
    · rw [if_neg hxb]
      have hlt : x.score < b.score := by
        simp only [scoreGE, not_le] at hxb
        exact hxb
      by_cases hx : x.score = c <;> by_cases hb : b.score = c
      · omega
      · simp [List.filter, hx, hb, ih]
      · simp [List.filter, hx, hb, ih]
      · simp [List.filter, hx, hb, ih]

theorem filter_score_insertionSort (c : Nat) (l : List ScoredWindow) :
    (List.insertionSort scoreGE l).filter (fun y => decide (y.score = c)) =
      l.filter (fun y => decide (y.score = c)) := by
  induction l with
  | nil => rfl
  | cons x l ih =>
    rw [List.insertionSort, filter_score_orderedInsert]
    by_cases hx : x.score = c <;> simp [List.filter, hx, ih]

theorem mem_scored_score {query : Str} {ws : List WindowInfo} {x : ScoredWindow}
    (hx : x ∈ ws.map (fun w => ScoredWindow.mk w (calculateWindowSimilarity query w))) :
    x.score = calculateWindowSimilarity query x.window := by
  obtain ⟨w, _, rfl⟩ := List.mem_map.mp hx
  rfl

/-- Shared specification of `searchWindows`: permutation of the
positive-score windows, descending scores, and filter-stability. -/
theorem searchWindows_spec (query : Str) (windows : List WindowInfo) :
    (searchWindows query windows).Perm
      ((windows.map withId).filter
        (fun w => decide (0 < calculateWindowSimilarity query w))) ∧
    (searchWindows query windows).Pairwise
      (fun a b => calculateWindowSimilarity query b ≤ calculateWindowSimilarity query a) ∧
    (∀ c : Nat, 0 < c →
      (searchWindows query windows).filter
          (fun w => decide (calculateWindowSimilarity query w = c)) =
        (windows.map withId).filter
          (fun w => decide (calculateWindowSimilarity query w = c))) := by
  set f := fun w => calculateWindowSimilarity query w with hf
  set ws' := windows.map withId with hws
  set g := fun w => ScoredWindow.mk w (f w) with hg
  set p := fun item : ScoredWindow => decide (0 < item.score) with hp
  set sorted := List.insertionSort scoreGE ((ws'.map g).filter p) with hsorted
  have hsw : searchWindows query windows = sorted.map ScoredWindow.window := rfl
  have hmem_scored : ∀ x ∈ sorted, x.score = f x.window := by
    intro x hx
    have h₁ : x ∈ (ws'.map g).filter p :=
      (List.perm_insertionSort scoreGE _).mem_iff.mp hx
    exact mem_scored_score (List.mem_filter.mp h₁).1
  have hfilter_scored : (ws'.map g).filter p = (ws'.filter (fun w => decide (0 < f w))).map g := by
    rw [List.filter_map]
    rfl
  refine ⟨?_, ?_, ?_⟩
  · rw [hsw]
    refine ((List.perm_insertionSort scoreGE _).map ScoredWindow.window).trans ?_
    rw [hfilter_scored, List.map_map]
    have : (ScoredWindow.window ∘ g) = fun w => w := rfl
    rw [this, List.map_id']
  · rw [hsw, List.pairwise_map]
    have hsortedp : sorted.Pairwise scoreGE :=
      List.sorted_insertionSort scoreGE ((ws'.map g).filter p)
    refine hsortedp.imp_of_mem ?_
    intro a b ha hb hab
    have hsa := hmem_scored a ha
    have hsb := hmem_scored b hb
    simpa [scoreGE, hsa, hsb] using hab
  · intro c hc
    rw [hsw, List.filter_map]
    have hcongr : sorted.filter ((fun w => decide (f w = c)) ∘ ScoredWindow.window) =
        sorted.filter (fun y => decide (y.score = c)) := by
      refine List.filter_congr ?_
      intro x hx
      simp [hmem_scored x hx]
    rw [hcongr, hsorted, filter_score_insertionSort, List.filter_filter]
    have hdrop : (ws'.map g).filter (fun a => decide (a.score = c) && p a) =
        (ws'.map g).filter (fun y => decide (y.score = c)) := by
      refine List.filter_congr ?_
      intro x _
      by_cases hxc : x.score = c
      · simp [hp, hxc, hc]
      · simp [hxc]
    rw [hdrop, List.filter_map, List.map_map]
    have hxg : ((fun y : ScoredWindow => decide (y.score = c)) ∘ g) = fun w => decide (f w = c) := rfl
    have hwg : (ScoredWindow.window ∘ g) = fun w => w := rfl
    rw [hxg, hwg, List.map_id']

/-- C8: for every query and window list, `searchWindows` returns exactly
the windows (with synthesized ids) whose total score is strictly
positive, ordered by descending score, and windows of equal score appear
in the same relative order as in the input (stable ties). -/
theorem searchWindows_ranked (query : Str) (windows : List WindowInfo) :
    (searchWindows query windows).Perm
      ((windows.map withId).filter
        (fun w => decide (0 < calculateWindowSimilarity query w))) ∧
    (searchWindows query windows).Pairwise
      (fun a b => calculateWindowSimilarity query b ≤ calculateWindowSimilarity query a) ∧
    (∀ c : Nat, 0 < c →
      (searchWindows query windows).filter
          (fun w => decide (calculateWindowSimilarity query w = c)) =
        (windows.map withId).filter
          (fun w => decide (calculateWindowSimilarity query w = c))) :=
  searchWindows_spec query windows

/-- Witness for C8 on the two-window scenario of the spec. -/
theorem searchWindows_ranked_witness :
    (0 : Nat) < 198 ∧
    (searchWindows "safari".data
        [⟨"Safari".data, "Apple - Home".data, "safari-main".data⟩,
         ⟨"Finder".data, "Documents".data, "finder-docs".data⟩]).filter
        (fun w => decide (calculateWindowSimilarity "safari".data w = 198)) =
      ([⟨"Safari".data, "Apple - Home".data, "safari-main".data⟩,
        ⟨"Finder".data, "Documents".data, "finder-docs".data⟩].map withId).filter
        (fun w => decide (calculateWindowSimilarity "safari".data w = 198)) :=
  ⟨by decide,
    (searchWindows_ranked "safari".data
      [⟨"Safari".data, "Apple - Home".data, "safari-main".data⟩,
       ⟨"Finder".data, "Documents".data, "finder-docs".data⟩]).2.2 198 (by decide)⟩

/-! ## C4 machinery: an exact (lowercase-stable) identifier hit scores
the dominant 1000, and a strictly maximal element heads the ranking. -/

theorem calcSim_id_match {query : Str} {w : WindowInfo}
    (h : w.id = toLowerStr query) : calculateWindowSimilarity query w = 1000 := by
  rw [calculateWindowSimilarity, if_pos h]

theorem searchWindows_cons_structure (query : Str) (windows : List WindowInfo) :
    searchWindows query windows =
      (List.insertionSort scoreGE
        (((windows.map withId).map
          (fun w => ScoredWindow.mk w (calculateWindowSimilarity query w))).filter
            (fun item => decide (0 < item.score)))).map ScoredWindow.window := rfl

theorem findBestWindow_unique_max (query : Str) (ws₁ ws₂ : List WindowInfo)
    (w : WindowInfo)
    (hw : calculateWindowSimilarity query (withId w) = 1000)
    (hothers : ∀ w' ∈ ws₁ ++ ws₂, calculateWindowSimilarity query (withId w') < 1000) :
    findBestWindow query (ws₁ ++ w :: ws₂) = some (withId w) := by
  set f := fun w' => calculateWindowSimilarity query w' with hf
  set g := fun w' => ScoredWindow.mk w' (f w') with hg
  set scored := ((ws₁ ++ w :: ws₂).map withId).map g with hscored
  set filtered := scored.filter (fun item => decide (0 < item.score)) with hfiltered
  set sorted := List.insertionSort scoreGE filtered with hsorted
  have hmem_scored : ∀ x ∈ scored, ∃ w' ∈ ws₁ ++ w :: ws₂, x = g (withId w') := by
    intro x hx
    obtain ⟨y, hy, rfl⟩ := List.mem_map.mp hx
    obtain ⟨w', hw', rfl⟩ := List.mem_map.mp hy
    exact ⟨w', hw', rfl⟩
  have hx₀ : g (withId w) ∈ filtered := by
    rw [hfiltered]
    refine List.mem_filter.mpr ⟨?_, ?_⟩
    · exact List.mem_map.mpr ⟨withId w, List.mem_map.mpr ⟨w, by simp, rfl⟩, rfl⟩
    · simp only [hg, hf, hw]
      decide
  have hx₀s : g (withId w) ∈ sorted :=
    (List.perm_insertionSort scoreGE filtered).symm.mem_iff.mp hx₀
  cases hs : sorted with
  | nil =>
    rw [hs] at hx₀s
    simp at hx₀s
  | cons h tl =>
    have hhead : h ∈ sorted := by
      rw [hs]
      simp
    have hhf : h ∈ filtered :=
      (List.perm_insertionSort scoreGE filtered).mem_iff.mp hhead
    have hhs : h ∈ scored := (List.mem_filter.mp hhf).1
    obtain ⟨w', hw', rfl⟩ := hmem_scored h hhs
    have hscore : 1000 ≤ (g (withId w')).score := by
      rcases List.mem_cons.mp (hs ▸ hx₀s) with heq | htl
      · rw [← heq]
        simp [hg, hf, hw]
      · have hpw : sorted.Pairwise scoreGE := List.sorted_insertionSort scoreGE filtered
        rw [hs, List.pairwise_cons] at hpw
        have := hpw.1 _ htl
        simpa [scoreGE, hg, hf, hw] using this
    have hw'w : w' = w := by
      rcases List.mem_append.mp hw' with hmem | hmem
      · have hlt := hothers w' (List.mem_append.mpr (Or.inl hmem))
        have h₂ : (g (withId w')).score < 1000 := by
          simpa [hg, hf] using hlt
        omega
      · rcases List.mem_cons.mp hmem with heq | hmem'
        · exact heq
        · have hlt := hothers w' (List.mem_append.mpr (Or.inr hmem'))
          have h₂ : (g (withId w')).score < 1000 := by
            simpa [hg, hf] using hlt
          omega
    have hmap : sorted.map ScoredWindow.window = withId w' :: tl.map ScoredWindow.window := by
      rw [hs]
      rfl
    have hsw₂ : searchWindows query (ws₁ ++ w :: ws₂) = sorted.map ScoredWindow.window := by
      rw [hsorted, hfiltered, hscored]
      rfl
    rw [findBestWindow, hsw₂, hmap, hw'w]
    rfl

/-- C4 (amended): if the query equals an existing window's identifier
(after synthesis of missing ids), the identifier is unchanged by
lowercasing, and every other window scores strictly below the dominant
1000, then `findBestWindow` returns exactly that window.  The two extra
conditions are forced: lowercasing the query can break an exact match
against a mixed-case identifier, and the additive fuzzy component is
unbounded, so another window can reach 1000. -/
theorem findBestWindow_exact_id (query : Str) (ws₁ ws₂ : List WindowInfo)
    (w : WindowInfo)
    (hq : query = (withId w).id)
    (hlower : toLowerStr query = query)
    (hothers : ∀ w' ∈ ws₁ ++ ws₂, calculateWindowSimilarity query (withId w') < 1000) :
    findBestWindow query (ws₁ ++ w :: ws₂) = some (withId w) := by
  refine findBestWindow_unique_max query ws₁ ws₂ w ?_ hothers
  refine calcSim_id_match ?_
  rw [← hq, hlower]

/-- Counterexample to C4 as stated: the query `"Foo-Bar"` equals the
first window's identifier, yet `findBestWindow` returns the second
window -- `calculateWindowSimilarity` compares the identifier against the
lowercased query, so the mixed-case identifier never receives the
dominant score. -/
theorem findBestWindow_exact_id_counterexample :
    findBestWindow "Foo-Bar".data
        [⟨"aa".data, "bb".data, "Foo-Bar".data⟩,
         ⟨"foo-bar".data, "cc".data, "zz".data⟩] =
      some ⟨"foo-bar".data, "cc".data, "zz".data⟩ := by
  decide

/-- Witness for the amended C4. -/
theorem findBestWindow_exact_id_witness :
    findBestWindow "safari-main".data
        [⟨"Safari".data, "Apple - Home".data, "safari-main".data⟩,
         ⟨"Finder".data, "Documents".data, "finder-docs".data⟩] =
      some ⟨"Safari".data, "Apple - Home".data, "safari-main".data⟩ :=
  findBestWindow_exact_id "safari-main".data []
    [⟨"Finder".data, "Documents".data, "finder-docs".data⟩]
    ⟨"Safari".data, "Apple - Home".data, "safari-main".data⟩
    (by decide) (by decide) (by decide)

/-! ## C7 machinery: comparing a full-title query against a strict
substring query on the same window. -/

theorem calcSim_of_ne_id {query : Str} {w : WindowInfo}
    (h : w.id ≠ toLowerStr query) :
    calculateWindowSimilarity query w =
      (if toLowerStr w.app = toLowerStr query ∨ toLowerStr w.title = toLowerStr query
        then 100 else 0) +
      (if jsIncludes (toLowerStr w.app ++ ' ' :: toLowerStr w.title) (toLowerStr query)
        then 50 else 0) +
      (if jsIncludes (toLowerStr w.app) (toLowerStr query) then 30 else 0) +
      (if jsIncludes (toLowerStr w.title) (toLowerStr query) then 30 else 0) +
      fuzzyScore (toLowerStr query) (toLowerStr w.app ++ ' ' :: toLowerStr w.title) := by
  rw [calculateWindowSimilarity, if_neg h]

theorem jsIncludes_self (s : Str) : jsIncludes s s = true := by
  simp [jsIncludes]

theorem jsIncludes_suffix_combined (app t : Str) :
    jsIncludes (app ++ ' ' :: t) t = true := by
  simp only [jsIncludes, decide_eq_true_eq]
  exact ⟨app ++ [' '], [], by simp⟩

/-- C7 (amended): for a window `w` and a strict substring `s` of the
title, the full-title query scores at least as high as `s`, provided
neither query hits the identifier gate, `s` does not equal the app name
case-insensitively, and the substring's fuzzy component exceeds the full
title's by at most 70 (the margin the non-fuzzy components guarantee).
Each proviso is forced: without it the 1000 identifier score, the
100 app-exact score, or an unbounded fuzzy surplus can push the
substring query strictly above the full title. -/
theorem calcSim_fullTitle_ge_substring (w : WindowInfo) (s : Str)
    (hsub : s <:+: w.title) (hne : s ≠ w.title)
    (hid_t : w.id ≠ toLowerStr w.title)
    (hid_s : w.id ≠ toLowerStr s)
    (happ : toLowerStr w.app ≠ toLowerStr s)
    (hfuzzy : fuzzyScore (toLowerStr s) (toLowerStr w.app ++ ' ' :: toLowerStr w.title) ≤
      fuzzyScore (toLowerStr w.title) (toLowerStr w.app ++ ' ' :: toLowerStr w.title) + 70) :
    calculateWindowSimilarity s w ≤ calculateWindowSimilarity w.title w := by
  have hlen : s.length < w.title.length := by
    have hle := hsub.sublist.length_le
    rcases Nat.lt_or_ge s.length w.title.length with h | h
    · exact h
    · exact absurd (hsub.sublist.eq_of_length (by omega)) hne
  have htitle_ne : toLowerStr w.title ≠ toLowerStr s := by
    intro h
    have := congrArg List.length h
    simp only [toLowerStr, List.length_map] at this
    omega
  rw [calcSim_of_ne_id hid_s, calcSim_of_ne_id hid_t]
  have hT₁ : (if toLowerStr w.app = toLowerStr w.title ∨
      toLowerStr w.title = toLowerStr w.title then 100 else 0) = 100 :=
    if_pos (Or.inr rfl)
  have hT₂ : (if jsIncludes (toLowerStr w.app ++ ' ' :: toLowerStr w.title)
      (toLowerStr w.title) then 50 else 0) = 50 := by
    rw [jsIncludes_suffix_combined]
    rfl
  have hT₄ : (if jsIncludes (toLowerStr w.title) (toLowerStr w.title)
      then 30 else 0) = 30 := by
    rw [jsIncludes_self]
    rfl
  have hS₁ : (if toLowerStr w.app = toLowerStr s ∨
      toLowerStr w.title = toLowerStr s then 100 else 0) = 0 := by
    rw [if_neg]
    rintro (h | h)
    · exact happ h
    · exact htitle_ne h
  rw [hT₁, hT₂, hT₄, hS₁]
  have hb₂ : (if jsIncludes (toLowerStr w.app ++ ' ' :: toLowerStr w.title)
      (toLowerStr s) then 50 else 0) ≤ 50 := by split <;> omega
  have hb₃ : (if jsIncludes (toLowerStr w.app) (toLowerStr s) then 30 else 0) ≤ 30 := by
    split <;> omega
  have hb₄ : (if jsIncludes (toLowerStr w.title) (toLowerStr s) then 30 else 0) ≤ 30 := by
    split <;> omega
  have hb₃' : 0 ≤ (if jsIncludes (toLowerStr w.app) (toLowerStr w.title)
      then 30 else 0) := Nat.zero_le _
  omega

/-- Counterexample to C7 as stated: on the window
`{app: "x", title: "foo-bar baz", id: "foo-bar"}` the strict substring
query `"foo-bar"` equals the identifier and scores the dominant 1000,
strictly above the full-title query's score. -/
theorem calcSim_fullTitle_ge_substring_counterexample :
    ("foo-bar".data <:+: "foo-bar baz".data) ∧
    "foo-bar".data ≠ "foo-bar baz".data ∧
    calculateWindowSimilarity "foo-bar baz".data
        ⟨"x".data, "foo-bar baz".data, "foo-bar".data⟩ <
      calculateWindowSimilarity "foo-bar".data
        ⟨"x".data, "foo-bar baz".data, "foo-bar".data⟩ := by
  refine ⟨by decide, by decide, by decide⟩

/-- Witness for the amended C7. -/
theorem calcSim_fullTitle_ge_substring_witness :
    calculateWindowSimilarity "abc".data ⟨"aa".data, "abcd".data, "zz".data⟩ ≤
      calculateWindowSimilarity "abcd".data ⟨"aa".data, "abcd".data, "zz".data⟩ :=
  calcSim_fullTitle_ge_substring ⟨"aa".data, "abcd".data, "zz".data⟩ "abc".data
    (by decide) (by decide) (by decide) (by decide) (by decide) (by decide)

/-! ## CoordinateSpace Transform (`normalizeCoordinatesToScreenshot`,
src/lib/utils.ts)

```ts
export function normalizeCoordinatesToScreenshot(screenCoords, windowInfo, screenshotDimensions) {
  const [screenX, screenY] = screenCoords;
  const windowRelativeX = screenX - windowInfo.x;
  const windowRelativeY = screenY - windowInfo.y;
  const scaleX = screenshotDimensions.width / windowInfo.width;
  const scaleY = screenshotDimensions.height / windowInfo.height;
  const normalizedX = windowRelativeX * scaleX;
  const normalizedY = windowRelativeY * scaleY;
  const clampedX = Math.max(0, Math.min(normalizedX, screenshotDimensions.width));
  const clampedY = Math.max(0, Math.min(normalizedY, screenshotDimensions.height));
  return [clampedX, clampedY];
}
```
-/

/-- A window rect `{x, y, width, height}` in global screen units. -/
structure WindowDimensions where
  x : ℚ
  y : ℚ
  width : ℚ
  height : ℚ
  deriving DecidableEq

/-- A screenshot's pixel dimensions `{width, height}`. -/
structure ImageDims where
  width : ℚ
  height : ℚ
  deriving DecidableEq

/-- `normalizeCoordinatesToScreenshot(screenCoords, windowInfo,
screenshotDimensions)`. -/
def normalizeCoordinatesToScreenshot (screenCoords : ℚ × ℚ)
    (windowInfo : WindowDimensions) (screenshotDimensions : ImageDims) : ℚ × ℚ :=
  let windowRelativeX := screenCoords.1 - windowInfo.x
  let windowRelativeY := screenCoords.2 - windowInfo.y
  let scaleX := screenshotDimensions.width / windowInfo.width
  let scaleY := screenshotDimensions.height / windowInfo.height
  let normalizedX := windowRelativeX * scaleX
  let normalizedY := windowRelativeY * scaleY
  (max 0 (min normalizedX screenshotDimensions.width),
   max 0 (min normalizedY screenshotDimensions.height))

/-- `normalizeSizeToScreenshot(size, windowInfo, screenshotDimensions)`:
the same per-axis scale, no clamping. -/
def normalizeSizeToScreenshot (size : ℚ × ℚ) (windowInfo : WindowDimensions)
    (screenshotDimensions : ImageDims) : ℚ × ℚ :=
  (size.1 * (screenshotDimensions.width / windowInfo.width),
   size.2 * (screenshotDimensions.height / windowInfo.height))

/-- C5: `normalizeCoordinatesToScreenshot` subtracts the window origin,
scales each axis by `screenshotSize / windowSize`, clamps each axis to
`[0, screenshotSize]`, and maps the point `[500, 300]` with window rect
`{x:100, y:50, w:800, h:600}` and screenshot `800x600` to exactly
`[400, 250]`. -/
theorem normalizeCoordinatesToScreenshot_spec (pt : ℚ × ℚ)
    (wi : WindowDimensions) (sd : ImageDims)
    (_hw : 0 < wi.width) (_hh : 0 < wi.height) :
    (normalizeCoordinatesToScreenshot pt wi sd =
      (max 0 (min ((pt.1 - wi.x) * (sd.width / wi.width)) sd.width),
       max 0 (min ((pt.2 - wi.y) * (sd.height / wi.height)) sd.height))) ∧
    (0 ≤ sd.width → 0 ≤ (normalizeCoordinatesToScreenshot pt wi sd).1 ∧
      (normalizeCoordinatesToScreenshot pt wi sd).1 ≤ sd.width) ∧
    (0 ≤ sd.height → 0 ≤ (normalizeCoordinatesToScreenshot pt wi sd).2 ∧
      (normalizeCoordinatesToScreenshot pt wi sd).2 ≤ sd.height) ∧
    normalizeCoordinatesToScreenshot (500, 300) ⟨100, 50, 800, 600⟩ ⟨800, 600⟩ =
      (400, 250) := by
  refine ⟨rfl, ?_, ?_, ?_⟩
  · intro hsw
    exact ⟨le_max_left 0 _, max_le hsw (min_le_right _ _)⟩
  · intro hsh
    exact ⟨le_max_left 0 _, max_le hsh (min_le_right _ _)⟩
  · norm_num [normalizeCoordinatesToScreenshot]

/-- Witness for C5 at the documented retina-free scenario. -/
theorem normalizeCoordinatesToScreenshot_spec_witness :
    (0 : ℚ) < 800 ∧
    normalizeCoordinatesToScreenshot (500, 300) ⟨100, 50, 800, 600⟩ ⟨800, 600⟩ =
      (400, 250) :=
  ⟨by norm_num,
    (normalizeCoordinatesToScreenshot_spec (500, 300) ⟨100, 50, 800, 600⟩
      ⟨800, 600⟩ (by norm_num) (by norm_num)).2.2.2⟩

/-! ## Extraction Session (`getAccessibilityTree`, src/lib/index.ts)

One spawned run of the external extractor is summarised by a
`SpawnResult`: either the `error` event fired (the child could not be
executed), or the child exited with a code, its collected stdout and
stderr.  `JSON.parse` on the collected stdout is modelled by the
`parsed` field (`none` when parsing throws, with `parseErrMsg` the
stringified exception); a parsed body is an `Envelope` carrying the
fields the handler inspects.  JS truthiness of the string field `error`
is `truthyStr`: an absent or empty string is falsy. -/

/-- A parsed JSON body from the extractor.  `error` is `some s` when the
body has an `error` field with string value `s` (the handler tests its
JS truthiness, see `truthyStr`); `needsPermission` is true when the body
has a truthy `needsPermission` field; `availableWindows` is `some` when
the body has an `availableWindows` array (an array is always truthy);
`window`, `a11y` and `screenshot` are the success payload. -/
structure Envelope where
  error : Option Str
  needsPermission : Bool
  availableWindows : Option (List WindowInfo)
  window : Option WindowDimensions
  a11y : Option A11yNode
  screenshot : Option Str

/-- Collected stdout of one run together with its `JSON.parse` result. -/
structure StdoutModel where
  raw : Str
  parsed : Option Envelope
  parseErrMsg : Str

/-- One run of the external process. -/
inductive SpawnResult where
  | spawnError (msg : Str)
  | exited (code : Nat) (stdout : StdoutModel) (stderr : Str)

/-- A rejection value: the `Error` message, plus the `availableWindows`
array attached to it in the not-found case. -/
structure ErrVal where
  message : Str
  availableWindows : Option (List WindowInfo)

/-- JS truthiness of an optional string field: present and non-empty. -/
def truthyStr : Option Str → Bool
  | none => false
  | some s => !s.isEmpty

/-- The regex test
`/^[a-z0-9-]+$/.test(s) && s.includes("-")` deciding the dispatch mode. -/
def isWindowIdStr (s : Str) : Bool :=
  (!s.isEmpty &&
    s.all (fun c => ('a' ≤ c && c ≤ 'z') || ('0' ≤ c && c ≤ '9') || c == '-')) &&
    s.contains '-'

/-- The argument vector handed to the spawned extractor:
`["--window-id", s]` for an id-shaped string, `[s]` otherwise. -/
def dispatchArgs (windowIdentifier : Str) : List Str :=
  if isWindowIdStr windowIdentifier then ["--window-id".data, windowIdentifier]
  else [windowIdentifier]

/-- What the `close` handler of `getAccessibilityTree` decides for one
run: resolve, reject, or enter the interactive permission-retry path
(only reachable when `needsPermission` is truthy and `autoRetry` is still
allowed). -/
inductive CloseDecision where
  | resolve (value : Envelope)
  | reject (err : ErrVal)
  | permissionRetry

/-- The `close` handler of `getAccessibilityTree` for one run (the
recursive redispatch is handled by `getAccessibilityTree` below). -/
def gaClose (resp : SpawnResult) (autoRetry : Bool) : CloseDecision :=
  match resp with
  | .spawnError m =>
    .reject ⟨"Failed to execute accessibility extractor: ".data ++ m, none⟩
  | .exited code out stderr =>
    if code ≠ 0 then
      match out.parsed with
      | some errorObj =>
        if truthyStr errorObj.error then
          if errorObj.needsPermission && autoRetry then
            .permissionRetry
          else
            match errorObj.availableWindows with
            | some ws => .reject ⟨errorObj.error.getD [], some ws⟩
            | none => .reject ⟨errorObj.error.getD [], none⟩
        else
          .reject ⟨"Process exited with code ".data ++ natLit code ++ ": ".data ++
            (if stderr.isEmpty then out.raw else stderr), none⟩
      | none =>
        .reject ⟨"Process exited with code ".data ++ natLit code ++ ": ".data ++
          (if stderr.isEmpty then out.raw else stderr), none⟩
    else
      match out.parsed with
      | none => .reject ⟨"Failed to parse JSON output: ".data ++ out.parseErrMsg, none⟩
      | some tree =>
        if truthyStr tree.error then
          .reject ⟨tree.error.getD [], none⟩
        else
          .resolve { tree with a11y := tree.a11y.map (fun t => assignHierarchicalIds t) }

theorem gaClose_false_ne_permission (resp : SpawnResult) :
    gaClose resp false ≠ CloseDecision.permissionRetry := by
  cases resp with
  | spawnError m => simp [gaClose]
  | exited code out stderr =>
    rw [gaClose]
    split
    · match out.parsed with
      | some errorObj =>
        simp only
        split
        · split
          · simp_all
          · split <;> simp
        · simp
      | none => simp
    · match out.parsed with
      | none => simp
      | some tree =>
        simp only
        split <;> simp

/-- One dispatched child process: the argument vector and the value of
the `autoRetry` flag of the call that spawned it. -/
structure Dispatch where
  args : List Str
  autoRetry : Bool
  deriving DecidableEq

/-- Observable outcome of one `getAccessibilityTree` call: the settled
promise, the dispatches issued (in order), and whether the interactive
permission prompt blocked for the user. -/
structure GAOutcome where
  result : Except ErrVal Envelope
  dispatches : List Dispatch
  promptedUser : Bool

/-- `getAccessibilityTree(windowIdentifier, autoRetry)` against an
oracle giving the first run's result and (if the permission path
redispatches) the retry run's result. -/
def getAccessibilityTree (windowIdentifier : Str) (firstRun retryRun : SpawnResult)
    (autoRetry : Bool) : GAOutcome :=
  let args := dispatchArgs windowIdentifier
  match gaClose firstRun autoRetry with
  | .resolve v => ⟨.ok v, [⟨args, autoRetry⟩], false⟩
  | .reject e => ⟨.error e, [⟨args, autoRetry⟩], false⟩
  | .permissionRetry =>
    match h : gaClose retryRun false with
    | .resolve v => ⟨.ok v, [⟨args, autoRetry⟩, ⟨args, false⟩], true⟩
    | .reject e =>
      ⟨.error ⟨"Still unable to access accessibility API: ".data ++ e.message, none⟩,
        [⟨args, autoRetry⟩, ⟨args, false⟩], true⟩
    | .permissionRetry => absurd h (gaClose_false_ne_permission retryRun)

theorem natLit_one : natLit 1 = ['1'] := by
  have h : toDigitsRev 1 = [1] := by
    rw [toDigitsRev]
    simp
  rw [natLit, h]
  decide

/-- C1 (amended): when the first run exits non-zero with a parsed body
whose `error` field is a non-empty string and `needsPermission` is true,
and auto-retry is enabled, the session prompts the user, redispatches
exactly once with auto-retry disabled (so no further automatic retry can
occur), resolves with the retry's value if the retry succeeds, and if
the retry fails rejects with the retry's failure reason wrapped under
the distinct prefix `"Still unable to access accessibility API: "`.
(The non-emptiness of the error string is forced: the handler tests JS
truthiness of `error`, so an empty error string skips the whole branch.) -/
theorem getAccessibilityTree_permission_retry (windowIdentifier : Str)
    (code : Nat) (out : StdoutModel) (stderr : Str) (retryRun : SpawnResult)
    (env : Envelope) (m : Str)
    (hcode : code ≠ 0)
    (hparsed : out.parsed = some env)
    (herr : env.error = some m) (hm : m ≠ [])
    (hperm : env.needsPermission = true) :
    (getAccessibilityTree windowIdentifier (.exited code out stderr) retryRun
      true).promptedUser = true ∧
    (getAccessibilityTree windowIdentifier (.exited code out stderr) retryRun
      true).dispatches =
      [⟨dispatchArgs windowIdentifier, true⟩, ⟨dispatchArgs windowIdentifier, false⟩] ∧
    (∀ v : Envelope, gaClose retryRun false = .resolve v →
      (getAccessibilityTree windowIdentifier (.exited code out stderr) retryRun
        true).result = .ok v) ∧
    (∀ e : ErrVal, gaClose retryRun false = .reject e →
      (getAccessibilityTree windowIdentifier (.exited code out stderr) retryRun
        true).result =
        .error ⟨"Still unable to access accessibility API: ".data ++ e.message, none⟩) := by
  have htruthy : truthyStr env.error = true := by
    rw [herr]
    simp [truthyStr, hm]
  have h₁ : gaClose (.exited code out stderr) true = .permissionRetry := by
    rw [gaClose]
    rw [if_pos hcode, hparsed]
    simp only [htruthy, if_pos, hperm, Bool.and_self, if_true]
  refine ⟨?_, ?_, ?_, ?_⟩
  · rw [getAccessibilityTree]
    simp only [h₁]
    split
    · rfl
    · rfl
    · rename_i heq
      exact absurd heq (gaClose_false_ne_permission retryRun)
  · rw [getAccessibilityTree]
    simp only [h₁]
    split
    · rfl
    · rfl
    · rename_i heq
      exact absurd heq (gaClose_false_ne_permission retryRun)
  · intro v hv
    rw [getAccessibilityTree]
    simp only [h₁]
    split
    · rename_i heq
      rw [hv] at heq
      injection heq with h
      rw [← h]
    · rename_i heq
      rw [hv] at heq
      exact absurd heq (by simp)
    · rename_i heq
      exact absurd heq (gaClose_false_ne_permission retryRun)
  · intro e he
    rw [getAccessibilityTree]
    simp only [h₁]
    split
    · rename_i heq
      rw [he] at heq
      exact absurd heq (by simp)
    · rename_i heq
      rw [he] at heq
      injection heq with h
      rw [← h]
    · rename_i heq
      exact absurd heq (gaClose_false_ne_permission retryRun)

/-- Counterexample to C1 as stated: the body
`{"error": "", "needsPermission": true}` contains an error field and the
permission flag, yet with auto-retry enabled the session neither prompts
nor redispatches -- the handler tests JS truthiness of `error`, the empty
string is falsy, and the call falls through to the generic process
failure. -/
theorem getAccessibilityTree_permission_retry_counterexample :
    (⟨some [], true, none, none, none, none⟩ : Envelope).error = some [] ∧
    (⟨some [], true, none, none, none, none⟩ : Envelope).needsPermission = true ∧
    (getAccessibilityTree ['w']
        (.exited 1 ⟨['x'], some ⟨some [], true, none, none, none, none⟩, []⟩ [])
        (.exited 1 ⟨['x'], some ⟨some [], true, none, none, none, none⟩, []⟩ [])
        true).promptedUser = false ∧
    (getAccessibilityTree ['w']
        (.exited 1 ⟨['x'], some ⟨some [], true, none, none, none, none⟩, []⟩ [])
        (.exited 1 ⟨['x'], some ⟨some [], true, none, none, none, none⟩, []⟩ [])
        true).dispatches = [⟨[['w']], true⟩] ∧
    (getAccessibilityTree ['w']
        (.exited 1 ⟨['x'], some ⟨some [], true, none, none, none, none⟩, []⟩ [])
        (.exited 1 ⟨['x'], some ⟨some [], true, none, none, none, none⟩, []⟩ [])
        true).result =
      .error ⟨"Process exited with code ".data ++ natLit 1 ++ ": ".data ++ ['x'], none⟩ := by
  have hga : gaClose
      (.exited 1 ⟨['x'], some ⟨some [], true, none, none, none, none⟩, []⟩ []) true =
      .reject ⟨"Process exited with code ".data ++ natLit 1 ++ ": ".data ++ ['x'], none⟩ := by
    rw [gaClose]
    simp [truthyStr]
  refine ⟨rfl, rfl, ?_, ?_, ?_⟩
  all_goals rw [getAccessibilityTree]
  all_goals simp only [hga]
  all_goals rfl

/-- Witness for the amended C1: a permission failure, then a failing
retry; the final rejection wraps the retry's message under the fixed
prefix. -/
theorem getAccessibilityTree_permission_retry_witness :
    (getAccessibilityTree ['w']
        (.exited 1 ⟨['x'], some ⟨some "denied".data, true, none, none, none, none⟩, []⟩ [])
        (.exited 1 ⟨['x'], some ⟨some "still denied".data, true, none, none, none, none⟩, []⟩ [])
        true).promptedUser = true ∧
    (getAccessibilityTree ['w']
        (.exited 1 ⟨['x'], some ⟨some "denied".data, true, none, none, none, none⟩, []⟩ [])
        (.exited 1 ⟨['x'], some ⟨some "still denied".data, true, none, none, none, none⟩, []⟩ [])
        true).dispatches = [⟨[['w']], true⟩, ⟨[['w']], false⟩] ∧
    (getAccessibilityTree ['w']
        (.exited 1 ⟨['x'], some ⟨some "denied".data, true, none, none, none, none⟩, []⟩ [])
        (.exited 1 ⟨['x'], some ⟨some "still denied".data, true, none, none, none, none⟩, []⟩ [])
        true).result =
      .error ⟨"Still unable to access accessibility API: ".data ++ "still denied".data,
        none⟩ := by
  have h := getAccessibilityTree_permission_retry ['w'] 1
    ⟨['x'], some ⟨some "denied".data, true, none, none, none, none⟩, []⟩ []
    (.exited 1 ⟨['x'], some ⟨some "still denied".data, true, none, none, none, none⟩, []⟩ [])
    ⟨some "denied".data, true, none, none, none, none⟩ "denied".data
    (by decide) rfl rfl (by decide) rfl
  refine ⟨h.1, ?_, ?_⟩
  · rw [h.2.1]
    rfl
  · exact h.2.2.2 ⟨"still denied".data, none⟩ rfl

/-- C6 (amended): a zero exit status is not sufficient for success.
With exit code 0: unparseable stdout rejects; a parsed body whose
`error` field is a non-empty string rejects with that message; the call
resolves only when the `error` field is absent or empty, and then the
`a11y` tree has been passed through `assignHierarchicalIds`.  (The
emptiness qualification is forced: the handler tests JS truthiness, so a
present-but-empty `error` string resolves.) -/
theorem getAccessibilityTree_zero_exit (windowIdentifier : Str) (out : StdoutModel)
    (stderr : Str) (retryRun : SpawnResult) (autoRetry : Bool) :
    (out.parsed = none →
      (getAccessibilityTree windowIdentifier (.exited 0 out stderr) retryRun
        autoRetry).result =
        .error ⟨"Failed to parse JSON output: ".data ++ out.parseErrMsg, none⟩) ∧
    (∀ (env : Envelope) (m : Str), out.parsed = some env → env.error = some m → m ≠ [] →
      (getAccessibilityTree windowIdentifier (.exited 0 out stderr) retryRun
        autoRetry).result = .error ⟨m, none⟩) ∧
    (∀ env : Envelope, out.parsed = some env → truthyStr env.error = false →
      (getAccessibilityTree windowIdentifier (.exited 0 out stderr) retryRun
        autoRetry).result =
        .ok { env with a11y := env.a11y.map (fun t => assignHierarchicalIds t) }) := by
  refine ⟨?_, ?_, ?_⟩
  · intro hnone
    have hga : gaClose (.exited 0 out stderr) autoRetry =
        .reject ⟨"Failed to parse JSON output: ".data ++ out.parseErrMsg, none⟩ := by
      rw [gaClose]
      simp [hnone]
    rw [getAccessibilityTree]
    simp only [hga]
  · intro env m hparsed herr hm
    have htruthy : truthyStr env.error = true := by
      rw [herr]
      simp [truthyStr, hm]
    have hga : gaClose (.exited 0 out stderr) autoRetry = .reject ⟨m, none⟩ := by
      rw [gaClose]
      simp [hparsed, herr, truthyStr, hm]
    rw [getAccessibilityTree]
    simp only [hga]
  · intro env hparsed hfalsy
    have hga : gaClose (.exited 0 out stderr) autoRetry =
        .resolve { env with a11y := env.a11y.map (fun t => assignHierarchicalIds t) } := by
      rw [gaClose]
      simp [hparsed, hfalsy]
    rw [getAccessibilityTree]
    simp only [hga]

/-- Counterexample to C6 as stated: a zero-exit body that contains an
error field -- the empty string -- resolves successfully instead of
rejecting, because the handler tests truthiness rather than presence. -/
theorem getAccessibilityTree_zero_exit_counterexample :
    (⟨some [], false, none, none, none, none⟩ : Envelope).error = some [] ∧
    (getAccessibilityTree ['w']
        (.exited 0 ⟨['x'], some ⟨some [], false, none, none, none, none⟩, []⟩ [])
        (.exited 0 ⟨['x'], some ⟨some [], false, none, none, none, none⟩, []⟩ [])
        true).result = .ok ⟨some [], false, none, none, none, none⟩ :=
  ⟨rfl, rfl⟩

/-- Witness for the amended C6: an unparseable zero-exit run rejects,
and a clean body resolves with ids assigned. -/
theorem getAccessibilityTree_zero_exit_witness :
    (getAccessibilityTree ['w'] (.exited 0 ⟨['g'], none, "bad".data⟩ [])
        (.exited 0 ⟨['g'], none, "bad".data⟩ []) true).result =
      .error ⟨"Failed to parse JSON output: ".data ++ "bad".data, none⟩ ∧
    (getAccessibilityTree ['w']
        (.exited 0 ⟨['x'], some ⟨none, false, none, none, some exTree, none⟩, []⟩ [])
        (.exited 0 ⟨['x'], some ⟨none, false, none, none, some exTree, none⟩, []⟩ [])
        true).result =
      .ok ⟨none, false, none, none, some (assignHierarchicalIds exTree), none⟩ :=
  ⟨(getAccessibilityTree_zero_exit ['w'] ⟨['g'], none, "bad".data⟩ []
      (.exited 0 ⟨['g'], none, "bad".data⟩ []) true).1 rfl,
    (getAccessibilityTree_zero_exit ['w']
      ⟨['x'], some ⟨none, false, none, none, some exTree, none⟩, []⟩ []
      (.exited 0 ⟨['x'], some ⟨none, false, none, none, some exTree, none⟩, []⟩ []) true).2.2
      ⟨none, false, none, none, some exTree, none⟩ rfl rfl⟩

/-! ## C10: the dispatch heuristic of `getAccessibilityTree`. -/

theorem getAccessibilityTree_dispatches_head (s : Str) (r₁ r₂ : SpawnResult)
    (autoRetry : Bool) :
    (getAccessibilityTree s r₁ r₂ autoRetry).dispatches.head? =
      some ⟨dispatchArgs s, autoRetry⟩ := by
  rw [getAccessibilityTree]
  cases h : gaClose r₁ autoRetry with
  | resolve v => rfl
  | reject e => rfl
  | permissionRetry =>
    split
    · rfl
    · rfl
    · split
      · rfl
      · rfl
      · rename_i heq
        exact absurd heq (gaClose_false_ne_permission r₂)

theorem isWindowIdStr_iff (s : Str) :
    isWindowIdStr s = true ↔
      (s ≠ [] ∧ (∀ c ∈ s, ('a' ≤ c ∧ c ≤ 'z') ∨ ('0' ≤ c ∧ c ≤ '9') ∨ c = '-') ∧
        '-' ∈ s) := by
  rw [isWindowIdStr]
  simp only [Bool.and_eq_true, Bool.not_eq_true', List.isEmpty_eq_false,
    List.all_eq_true, Bool.or_eq_true, decide_eq_true_eq, beq_iff_eq]
  constructor
  · rintro ⟨⟨hne, hall⟩, hmem⟩
    refine ⟨hne, fun c hc => ?_, List.mem_of_elem_eq_true hmem⟩
    have := hall c hc
    tauto
  · rintro ⟨hne, hall, hmem⟩
    refine ⟨⟨hne, fun c hc => ?_⟩, List.elem_eq_true_of_mem hmem⟩
    have := hall c hc
    tauto

/-- C10: the external process is invoked with `["--window-id", s]`
exactly when `s` is nonempty, consists only of lowercase letters, digits
and hyphens, and contains at least one hyphen; otherwise it is invoked
with `[s]` as a free-text query.  In particular every such id-shaped
window title is always dispatched as an id lookup, never as a title
search. -/
theorem getAccessibilityTree_dispatch_heuristic (s : Str) (r₁ r₂ : SpawnResult)
    (autoRetry : Bool) :
    ((getAccessibilityTree s r₁ r₂ autoRetry).dispatches.head?.map Dispatch.args =
        some ["--window-id".data, s] ↔
      (s ≠ [] ∧ (∀ c ∈ s, ('a' ≤ c ∧ c ≤ 'z') ∨ ('0' ≤ c ∧ c ≤ '9') ∨ c = '-') ∧
        '-' ∈ s)) ∧
    (¬ (s ≠ [] ∧ (∀ c ∈ s, ('a' ≤ c ∧ c ≤ 'z') ∨ ('0' ≤ c ∧ c ≤ '9') ∨ c = '-') ∧
        '-' ∈ s) →
      (getAccessibilityTree s r₁ r₂ autoRetry).dispatches.head?.map Dispatch.args =
        some [s]) := by
  rw [getAccessibilityTree_dispatches_head]
  constructor
  · rw [← isWindowIdStr_iff]
    constructor
    · intro h
      by_cases hid : isWindowIdStr s
      · exact hid
      · rw [Option.map_some', dispatchArgs, if_neg (by simpa using hid)] at h
        injection h with h
        have := congrArg List.length h
        simp at this
    · intro hid
      rw [Option.map_some', dispatchArgs, if_pos hid]
  · intro h
    rw [← isWindowIdStr_iff] at h
    rw [Option.map_some', dispatchArgs, if_neg (by simpa using h)]

/-- Witness for C10: a plain word dispatches as a title query, an
id-shaped string as `--window-id`. -/
theorem getAccessibilityTree_dispatch_heuristic_witness :
    (getAccessibilityTree "hello".data (.exited 0 ⟨[], none, []⟩ [])
        (.exited 0 ⟨[], none, []⟩ []) true).dispatches.head?.map Dispatch.args =
      some ["hello".data] ∧
    (getAccessibilityTree "safari-main".data (.exited 0 ⟨[], none, []⟩ [])
        (.exited 0 ⟨[], none, []⟩ []) true).dispatches.head?.map Dispatch.args =
      some ["--window-id".data, "safari-main".data] :=
  ⟨(getAccessibilityTree_dispatch_heuristic "hello".data (.exited 0 ⟨[], none, []⟩ [])
      (.exited 0 ⟨[], none, []⟩ []) true).2 (by decide),
    (getAccessibilityTree_dispatch_heuristic "safari-main".data
      (.exited 0 ⟨[], none, []⟩ [])
      (.exited 0 ⟨[], none, []⟩ []) true).1.mpr (by decide)⟩

/-! ## Action Executor (`clickElement`, src/lib/inference.ts and
`click`, src/lib/actions.ts)

`clickElement` computes the element's center in global screen
coordinates and spawns `--click-absolute` with it unchanged -- the
display-info fetch inside `if (windowInfo)` sits in a `try/catch` whose
body only logs, so it cannot change the issued coordinates or the
outcome; its run is the ignored `displayRun` argument.  `clickElement`
attaches no stdout listener to the click child: only the exit code (or
a spawn failure) decides rejection, the response body is never parsed. -/

/-- Outcome of a click action: the global-screen point handed to
`--click-absolute` (if the click child was spawned at all) and the
settled promise. -/
structure ClickOutcome where
  issued : Option (ℚ × ℚ)
  result : Except Str Unit

/-- `clickElement(node, windowInfo?)` against the diagnostic
display-info run and the click run. -/
def clickElement (node : A11yNode) (_windowInfo : Option WindowDimensions)
    (_displayRun : SpawnResult) (clickRun : SpawnResult) : ClickOutcome :=
  match node.position, node.size with
  | some p, some s =>
    let clickX := p.1 + s.1 / 2
    let clickY := p.2 + s.2 / 2
    match clickRun with
    | .spawnError m =>
      ⟨some (clickX, clickY), .error ("Failed to execute click: ".data ++ m)⟩
    | .exited code _ stderr =>
      if code ≠ 0 then
        ⟨some (clickX, clickY),
          .error ("Click command failed with code ".data ++ natLit code ++
            ": ".data ++ stderr)⟩
      else
        ⟨some (clickX, clickY), .ok ()⟩
  | _, _ =>
    ⟨none, .error "Element must have position and size to be clickable".data⟩

/-- `click(nodeId, options)` of the Action Executor: resolve the node,
reject when absent or without geometry, run the two diagnostic
annotation steps inside `try/catch` (their outcomes -- the bounding-box
draw, the full-screenshot fetch and the circle draw -- are the ignored
`_boundingBoxRun`, `_fullShotRun` and `_circleRun` arguments, logged
only), then delegate to `clickElement`. -/
def click (nodeId : Str) (tree : A11yNode) (windowInfo : WindowDimensions)
    (_screenshotPath : Option Str) (_boundingBoxRun : Except Str Str)
    (_fullShotRun : SpawnResult) (_circleRun : Except Str (Str × ℚ × ℚ))
    (displayRun : SpawnResult) (clickRun : SpawnResult) : ClickOutcome :=
  match findNodeById tree nodeId with
  | none =>
    ⟨none, .error ("Node with id ".data ++ '"' :: nodeId ++
      '"' :: " not found in accessibility tree".data)⟩
  | some targetNode =>
    match targetNode.position, targetNode.size with
    | some _, some _ => clickElement targetNode (some windowInfo) displayRun clickRun
    | _, _ =>
      ⟨none, .error ("Node ".data ++ nodeId ++
        " does not have position/size and cannot be clicked".data)⟩

/-- C9 (amended): for a node with position and size, the click is issued
at the raw global-screen center `position + size/2` with no
coordinate-space transform; the action rejects exactly when the click
child fails to spawn or exits non-zero -- the response body is never
parsed, so a malformed response with exit 0 is treated as success --
and the diagnostic steps (display-info fetch in `clickElement`, the
annotation steps in `click`) never influence the outcome. -/
theorem clickElement_center_exit (node : A11yNode) (p s : ℚ × ℚ)
    (windowInfo : Option WindowDimensions) (d₁ d₂ clickRun : SpawnResult)
    (hp : node.position = some p) (hs : node.size = some s) :
    (clickElement node windowInfo d₁ clickRun).issued =
      some (p.1 + s.1 / 2, p.2 + s.2 / 2) ∧
    ((clickElement node windowInfo d₁ clickRun).result = .ok () ↔
      ∃ so se, clickRun = .exited 0 so se) ∧
    clickElement node windowInfo d₁ clickRun = clickElement node windowInfo d₂ clickRun ∧
    (∀ (nodeId : Str) (tree : A11yNode) (wi : WindowDimensions)
        (sp₁ sp₂ : Option Str) (b₁ b₂ : Except Str Str) (f₁ f₂ : SpawnResult)
        (c₁ c₂ : Except Str (Str × ℚ × ℚ)),
      click nodeId tree wi sp₁ b₁ f₁ c₁ d₁ clickRun =
        click nodeId tree wi sp₂ b₂ f₂ c₂ d₂ clickRun) := by
  refine ⟨?_, ?_, rfl, fun nodeId tree wi sp₁ sp₂ b₁ b₂ f₁ f₂ c₁ c₂ => rfl⟩
  · rw [clickElement, hp, hs]
    cases clickRun with
    | spawnError m => rfl
    | exited code so se =>
      by_cases hc : code = 0
      · subst hc
        rfl
      · simp only [if_pos hc]
  · rw [clickElement, hp, hs]
    cases clickRun with
    | spawnError m =>
      simp only
      constructor
      · intro h
        exact absurd h (by simp)
      · rintro ⟨so', se', heq⟩
        exact absurd heq (by simp)
    | exited code so se =>
      by_cases hc : code = 0
      · subst hc
        constructor
        · intro _
          exact ⟨so, se, rfl⟩
        · intro _
          rfl
      · simp only [if_pos hc]
        constructor
        · intro h
          exact absurd h (by simp)
        · rintro ⟨so', se', heq⟩
          injection heq with h₁ h₂ h₃
          exact absurd h₁ hc

/-- Counterexample to C9 as stated: a click child that exits 0 with
unparseable stdout (a malformed response) still resolves -- the claim's
"or returns a malformed response" failure condition does not exist in
the code, which never reads the click child's stdout. -/
theorem clickElement_center_exit_counterexample :
    (⟨['g'], none, ['e']⟩ : StdoutModel).parsed = none ∧
    (clickElement
        (A11yNode.mk []
          { NodeAttrs.empty with position := some (1, 2), size := some (3, 4) } [])
        none (.exited 0 ⟨[], none, []⟩ [])
        (.exited 0 ⟨['g'], none, ['e']⟩ [])).result = .ok () :=
  ⟨rfl, rfl⟩

/-- Witness for the amended C9 at a concrete clickable node. -/
theorem clickElement_center_exit_witness :
    (clickElement
        (A11yNode.mk []
          { NodeAttrs.empty with position := some (10, 20), size := some (4, 6) } [])
        none (.exited 0 ⟨[], none, []⟩ [])
        (.exited 0 ⟨[], none, []⟩ [])).issued = some (12, 23) ∧
    (clickElement
        (A11yNode.mk []
          { NodeAttrs.empty with position := some (10, 20), size := some (4, 6) } [])
        none (.exited 0 ⟨[], none, []⟩ [])
        (.exited 0 ⟨[], none, []⟩ [])).result = .ok () := by
  have h := clickElement_center_exit
    (A11yNode.mk []
      { NodeAttrs.empty with position := some (10, 20), size := some (4, 6) } [])
    (10, 20) (4, 6) none (.exited 0 ⟨[], none, []⟩ []) (.exited 0 ⟨[], none, []⟩ [])
    (.exited 0 ⟨[], none, []⟩ []) rfl rfl
  refine ⟨?_, ?_⟩
  · rw [h.1]
    norm_num
  · exact h.2.1.mpr ⟨⟨[], none, []⟩, [], rfl⟩
